import Mathlib

/-!
Verification of the image-collection / PDF-layout bot (`src/bot.py`).

The definitions below are a shallow embedding of the program's data model and
operations.  Machine-level concerns that are external to the program's own
logic (the Telegram transport, the filesystem, the PDF encoder backend) are
modelled as explicit parameters: a download attempt's outcome, the result of
probing a file's aspect ratio, and so on.  Floating-point page geometry is
embedded over `ℚ` with exact arithmetic; the A4 constants are the exact
rational values `210*72/25.4` and `297*72/25.4` used by the source.
-/

namespace PdfBot

/-- `PAGE_WIDTH` from `reportlab.lib.pagesizes.A4`: 210 mm in points. -/
def PAGE_WIDTH : ℚ := 75600 / 127

/-- `PAGE_HEIGHT` from `reportlab.lib.pagesizes.A4`: 297 mm in points. -/
def PAGE_HEIGHT : ℚ := 106920 / 127

/-- `IMAGES_PER_PAGE = 3` (bot.py line 48). -/
def IMAGES_PER_PAGE : Nat := 3

/-- `VERTICAL_SPACING = 20` points (bot.py line 49). -/
def VERTICAL_SPACING : ℚ := 20

/-- `MAX_CONCURRENT_DOWNLOADS = 8` (bot.py line 51). -/
def MAX_CONCURRENT_DOWNLOADS : Nat := 8

/-- An incoming chat message, reduced to the fields `is_image` and
`handle_image` inspect: whether it carries a photo, and the mime type of an
attached document (the source's `mime_type or ""` is folded into the field;
text is embedded as `List Char`). -/
structure Msg where
  mid : Nat
  photo : Bool
  document : Option (List Char)
deriving DecidableEq, Repr

/-- `is_image` (bot.py lines 82-89): a photo, or a document whose mime type
starts with `image/`. -/
def is_image (m : Msg) : Bool :=
  if m.photo then true
  else
    match m.document with
    | some mime => mime.take 6 = ['i', 'm', 'a', 'g', 'e', '/']
    | none => false

/-- One entry of `sessions[user]["image_refs"]` (bot.py lines 476-480,
499-503): the stored message, the `"type"` tag, and the sequence number. -/
structure ItemRef where
  message : Msg
  isPhoto : Bool
  sequence : Nat
deriving DecidableEq, Repr

/-- One user session (bot.py lines 266-272, with the keys
`downloaded_images` and `waiting_for_name` added later by `stop_session`;
absent keys are modelled by their falsy defaults). -/
structure Session where
  image_refs : List ItemRef
  active : Bool
  media_groups : List Nat
  sequence : Nat
  downloaded_images : List Nat
  waiting_for_name : Bool
deriving DecidableEq, Repr

/-- The session created by `start_session` (bot.py lines 266-272). -/
def initSession : Session :=
  { image_refs := []
    active := true
    media_groups := []
    sequence := 0
    downloaded_images := []
    waiting_for_name := false }

/-- An ingestion event as seen by `handle_image`: a plain message, or a
message carrying a `media_group_id` together with the album that
`client.get_media_group` returns for it (`none` when that call raises). -/
inductive Event where
  | single (m : Msg)
  | group (gid : Nat) (album : Option (List Msg))
deriving DecidableEq, Repr

/-- `set.add` on the `media_groups` set, modelled on a duplicate-free list. -/
def insertGroup (g : Nat) (l : List Nat) : List Nat :=
  if g ∈ l then l else g :: l

/-- The loop of bot.py lines 474-481: append one `ItemRef` per image of the
album, incrementing the local `seq` for each image.  Returns the appended
block and the final value of `seq`. -/
def groupAppend (seq : Nat) : List Msg → List ItemRef × Nat
  | [] => ([], seq)
  | m :: ms =>
    if is_image m then
      let rest := groupAppend (seq + 1) ms
      (⟨m, m.photo, seq⟩ :: rest.1, rest.2)
    else groupAppend seq ms

/-- `handle_image` (bot.py lines 445-505).  The counter is incremented before
any media-group or image-type check (line 455); a duplicate group id returns
early; the group id added to `media_groups` is discarded again in the
`finally` block (line 490). -/
def handle_image (s : Session) (e : Event) : Session :=
  if s.active = false then s
  else
    let s1 : Session := { s with sequence := s.sequence + 1 }
    match e with
    | .group gid album =>
      if gid ∈ s1.media_groups then s1
      else
        let s2 : Session := { s1 with media_groups := insertGroup gid s1.media_groups }
        let s3 : Session :=
          match album with
          | some msgs =>
            let ga := groupAppend s1.sequence msgs
            { s2 with image_refs := s2.image_refs ++ ga.1, sequence := ga.2 }
          | none => s2
        { s3 with media_groups := s3.media_groups.erase gid }
    | .single m =>
      if is_image m = false then s1
      else { s1 with image_refs := s1.image_refs ++ [⟨m, m.photo, s1.sequence⟩] }

/-- A sequence of ingestion events applied to a session. -/
def runEvents (s : Session) (es : List Event) : Session :=
  es.foldl handle_image s

/-- The sequence numbers stored in a session, in list order. -/
def seqs (s : Session) : List Nat :=
  s.image_refs.map (·.sequence)

/-- What the filesystem says about one downloaded image at layout time:
whether the path exists, the outcome of the aspect-ratio probe
(`Image.open` at bot.py line 179; `some (height/width)` on success, `none`
when it raises), and whether the draw-time `Image.open` (line 196)
succeeds. -/
structure ImgInfo where
  present : Bool
  probe : Option ℚ
  draw : Bool
deriving DecidableEq, Repr

/-- One `drawImage` call's geometry (bot.py lines 213-221): `x_offset`,
`current_y - scaled_height`, `scaled_width`, `scaled_height`. -/
structure Placement where
  x : ℚ
  y : ℚ
  w : ℚ
  h : ℚ
deriving DecidableEq, Repr

/-- The aspect-ratio pass of bot.py lines 173-182: a missing file contributes
no entry at all (the `if img_path.exists()` guard fails inside the `try` and
nothing is appended), a present file whose open raises contributes the
default `1.0`. -/
def batchRatios : List ImgInfo → List ℚ
  | [] => []
  | img :: rest =>
    if img.present then
      (match img.probe with
       | some r => r
       | none => 1) :: batchRatios rest
    else batchRatios rest

/-- `height_per_image` (bot.py lines 185-186) for a batch of `bs` images. -/
def height_per_image (bs : Nat) : ℚ :=
  (PAGE_HEIGHT - VERTICAL_SPACING * ((bs : ℚ) - 1)) / (bs : ℚ)

/-- The draw loop of bot.py lines 189-227.  A missing file is skipped
(`continue`), a file whose draw-time open raises is skipped by the `except`
handler, and an out-of-range `aspect_ratios[idx]` raises `IndexError`,
which the same `except` handler turns into a skip; in every skip the
vertical cursor is left unchanged. -/
def drawLoop (ratios : List ℚ) (hpi : ℚ) : Nat → ℚ → List ImgInfo → List Placement
  | _, _, [] => []
  | idx, y, img :: rest =>
    if img.present = false then drawLoop ratios hpi (idx + 1) y rest
    else if img.draw = false then drawLoop ratios hpi (idx + 1) y rest
    else
      match ratios[idx]? with
      | none => drawLoop ratios hpi (idx + 1) y rest
      | some aspect =>
        let h0 := PAGE_WIDTH * aspect
        let wh : ℚ × ℚ := if hpi < h0 then (hpi / aspect, hpi) else (PAGE_WIDTH, h0)
        ⟨(PAGE_WIDTH - wh.1) / 2, y - wh.2, wh.1, wh.2⟩ ::
          drawLoop ratios hpi (idx + 1) (y - (wh.2 + VERTICAL_SPACING)) rest

/-- One page of the PDF: the placements drawn for one batch
(bot.py lines 169-227). -/
def drawBatch (batch : List ImgInfo) : List Placement :=
  drawLoop (batchRatios batch) (height_per_image batch.length) 0 PAGE_HEIGHT batch

/-- The batching `images[i:i+IMAGES_PER_PAGE]` of bot.py line 163/170,
as consecutive chunks of size `k`.  (`k = 0` would be a `ValueError` in the
source; the embedding returns `[]` there and is only used with `k ≥ 1`.) -/
def chunk (k : Nat) (l : List α) : List (List α) :=
  if _hk : k = 0 then []
  else
    match l with
    | [] => []
    | a :: l' => (a :: l').take k :: chunk k ((a :: l').drop k)
termination_by l.length
decreasing_by
  simp only [List.length_drop, List.length_cons]
  omega

/-- `generate_hq_pdf` (bot.py lines 149-235), parameterized by the
`IMAGES_PER_PAGE` configuration constant: the emitted pages (one per batch,
exactly as the loop emits them) and the returned `page_count` (incremented
once per batch). -/
def generate_hq_pdf (ipp : Nat) (images : List ImgInfo) : List (List Placement) × Nat :=
  let batches := chunk ipp images
  (batches.map drawBatch, batches.length)

/-- Modelled from the spec (§4.4): `slotHeight = (pageHeight -
spacing*(batchSize-1)) / batchSize`. -/
def specSlotHeight (bs : Nat) : ℚ :=
  (PAGE_HEIGHT - VERTICAL_SPACING * ((bs : ℚ) - 1)) / (bs : ℚ)

/-- Modelled from the spec (§4.4): for each image in order, candidate width
is the full page width and candidate height `width * aspectRatio`; if the
candidate height exceeds the slot height the width is re-derived from the
slot height preserving aspect ratio; each image is horizontally centered and
the vertical cursor decrements by `height + spacing` after each placement.
A `none` entry stands for an image that cannot be opened at draw time and
yields no placement. -/
def specPlacements (slot : ℚ) : ℚ → List (Option ℚ) → List Placement
  | _, [] => []
  | y, none :: rest => specPlacements slot y rest
  | y, some a :: rest =>
    let h0 := PAGE_WIDTH * a
    let wh : ℚ × ℚ := if slot < h0 then (slot / a, slot) else (PAGE_WIDTH, h0)
    ⟨(PAGE_WIDTH - wh.1) / 2, y - wh.2, wh.1, wh.2⟩ ::
      specPlacements slot (y - (wh.2 + VERTICAL_SPACING)) rest

/-- The aspect ratio a present image is effectively drawn with: `none` when
the draw-time open fails (the image is skipped), otherwise the probed ratio
with the `1.0` default for a failed probe. -/
def effAspect (i : ImgInfo) : Option ℚ :=
  if i.draw then some (i.probe.getD 1) else none

/-- The outcome of one `download_media` attempt (bot.py lines 107-110):
a timeout, another exception, or a normal return after which the file either
does not exist (`done none`) or exists with the given byte size. -/
inductive FetchTry where
  | timeout
  | failed
  | done (size : Option Nat)
deriving DecidableEq, Repr

/-- A download attempt succeeds when the file exists with more than 1024
bytes (bot.py lines 113-116). -/
def fetchSuccess : FetchTry → Bool
  | .done (some sz) => 1024 < sz
  | _ => false

/-- A download attempt left an undersized partial artifact, which the code
deletes before retrying (bot.py lines 117-122). -/
def fetchUndersized : FetchTry → Bool
  | .done (some sz) => sz ≤ 1024
  | _ => false

/-- The observable trace of one `robust_download` call: the attempt index at
which it returned (or `none` after exhausting all attempts and raising), the
backoff durations slept in order, the attempt indices at which a partial
artifact was deleted, and how many attempts ran. -/
structure DLTrace where
  result : Option Nat
  sleeps : List Nat
  deleted : List Nat
  attempts : Nat
deriving DecidableEq, Repr

/-- The retry loop of `robust_download` (bot.py lines 104-130), over the
per-attempt outcomes `att`: on a valid download return immediately; on any
failed attempt, delete an undersized artifact if there is one and sleep
`2 ^ attempt` seconds — including after the final attempt, since line 130
runs on every non-returning iteration. -/
def robust_download_loop (att : Nat → FetchTry) : Nat → Nat → DLTrace
  | _, 0 => ⟨none, [], [], 0⟩
  | i, rem + 1 =>
    if fetchSuccess (att i) then ⟨some i, [], [], 1⟩
    else
      let t := robust_download_loop att (i + 1) rem
      { result := t.result
        sleeps := 2 ^ i :: t.sleeps
        deleted := if fetchUndersized (att i) then i :: t.deleted else t.deleted
        attempts := t.attempts + 1 }

/-- `robust_download` (bot.py lines 91-132) with `max_retries` attempts
(the source default is 5). -/
def robust_download (max_retries : Nat) (att : Nat → FetchTry) : DLTrace :=
  robust_download_loop att 0 max_retries

/-- `process_image` (bot.py lines 346-366): the exception raised by an
exhausted `robust_download` is caught and returned as a value, so the task's
settled result is `none` on failure rather than a propagated error. -/
def process_image_outcome (t : DLTrace) : Option Nat :=
  t.result

/-- Python's `enumerate`, starting at `n`. -/
def pyEnumFrom (n : Nat) : List α → List (Nat × α)
  | [] => []
  | a :: l => (n, a) :: pyEnumFrom (n + 1) l

/-- Python's `enumerate`. -/
def pyEnum (l : List α) : List (Nat × α) :=
  pyEnumFrom 0 l

/-- The key order used by `sorted(..., key=lambda x: x["sequence"])`
(bot.py line 303). -/
def seqLe (a b : ItemRef) : Prop :=
  a.sequence ≤ b.sequence

/-- The key order used by `downloaded_images.sort(key=lambda x: x[0])`
(bot.py line 333). -/
def idxLe (a b : Nat × Nat) : Prop :=
  a.1 ≤ b.1

/-- Strict version of `idxLe`, used to state uniqueness of the sorted
order. -/
def idxLt (a b : Nat × Nat) : Prop :=
  a.1 < b.1

instance : DecidableRel seqLe := fun a b => Nat.decLe a.sequence b.sequence

instance : DecidableRel idxLe := fun a b => Nat.decLe a.1 b.1

instance : DecidableRel idxLt := fun a b => Nat.decLt a.1 b.1

/-- `sorted_refs` (bot.py line 303): the session's refs sorted by sequence
number (Python's stable sort, embedded as a stable insertion sort). -/
def sorted_refs (s : Session) : List ItemRef :=
  s.image_refs.insertionSort seqLe

/-- `asyncio.gather(*download_tasks)` (bot.py line 321): the settled results
arrive in task-creation order, one per index of `sorted_refs`; `outcome i`
is `process_image`'s settled value for the task with index `i` (`none` for
a returned exception or `None`). -/
def gather_results (n : Nat) (outcome : Nat → Option Nat) : List (Option Nat) :=
  (List.range n).map outcome

/-- The collection loop of bot.py lines 324-331: pair each non-failure
result with its index, in results order. -/
def collect_downloads (results : List (Option Nat)) : List (Nat × Nat) :=
  (pyEnum results).filterMap fun p => p.2.map fun v => (p.1, v)

/-- `downloaded_images.sort(key=lambda x: x[0])` (bot.py line 333). -/
def sort_downloads (l : List (Nat × Nat)) : List (Nat × Nat) :=
  l.insertionSort idxLe

/-- The failure reports of bot.py lines 328-330: one `reply` per failed
index. -/
def failure_reports (n : Nat) (outcome : Nat → Option Nat) : List Nat :=
  (List.range n).filter fun i => outcome i = none

/-- The image-path list `stop_session` finally stores in
`downloaded_images` (bot.py lines 303-334). -/
def stop_emit (s : Session) (outcome : Nat → Option Nat) : List Nat :=
  (sort_downloads (collect_downloads
    (gather_results (sorted_refs s).length outcome))).map Prod.snd

/-- The `download_tasks` list (bot.py lines 306-318): one task is created
eagerly per entry of `sorted_refs`, before any result is awaited; no
semaphore or queue bounds how many are in flight. -/
def download_tasks (s : Session) : List Nat :=
  (pyEnum (sorted_refs s)).map Prod.fst

/-- The whole-process state the handlers touch: the global `sessions` dict
and the per-user working directories on disk (`user_data/<user_id>`). -/
structure BotState where
  sessions : List (Nat × Session)
  dirs : List Nat
deriving DecidableEq, Repr

/-- `sessions[user_id]` lookup. -/
def getSession (st : BotState) (u : Nat) : Option Session :=
  (st.sessions.find? fun p => p.1 = u).map Prod.snd

/-- Overwrite user `u`'s session entry (a no-op when `u` has no entry,
matching an assignment to an existing key). -/
def setSession (st : BotState) (u : Nat) (s : Session) : BotState :=
  { st with sessions := st.sessions.map fun p => if p.1 = u then (u, s) else p }

/-- `clean_session` (bot.py lines 507-513): what the coroutine does when it
actually runs — remove the working directory and delete the session entry. -/
def clean_session (u : Nat) (st : BotState) : BotState :=
  match getSession st u with
  | none => st
  | some _ =>
    { sessions := st.sessions.filter fun p => ¬(p.1 = u)
      dirs := st.dirs.erase u }

/-- `stop_session` (bot.py lines 281-344), with the per-index settled
download outcomes passed in.  In the empty-session branch the source calls
`clean_session(user_id)` without `await` (line 294), so the coroutine never
runs and the state keeps the session entry and the directory. -/
def stop_session (st : BotState) (u : Nat) (outcome : Nat → Option Nat) : BotState :=
  match getSession st u with
  | none => st
  | some s =>
    if s.active = false then st
    else
      let s1 : Session := { s with active := false }
      if s1.image_refs.length = 0 then
        setSession st u s1
      else
        setSession st u
          { s1 with
            downloaded_images := stop_emit s1 outcome
            waiting_for_name := true }

/-- The document `handle_text` sends (bot.py lines 423-434): the page count
and image count reported in the caption. -/
structure SentDoc where
  pages : Nat
  imageCount : Nat
deriving DecidableEq, Repr

/-- Python's `str.strip()` on the message text. -/
def pyStrip (t : List Char) : List Char :=
  ((t.dropWhile Char.isWhitespace).reverse.dropWhile Char.isWhitespace).reverse

/-- `handle_text` (bot.py lines 376-443), with the filesystem view of the
downloaded paths passed in as `info`.  On the success path the PDF is
generated from `downloaded_images` and sent (the filename itself only names
the artifact and is not modelled further); `clean_session(user_id)` is
again called without `await` (line 438), so the state is unchanged. -/
def handle_text (st : BotState) (u : Nat) (text : List Char) (info : Nat → ImgInfo) :
    BotState × Option SentDoc :=
  match getSession st u with
  | none => (st, none)
  | some s =>
    if s.waiting_for_name then
      if (pyStrip text).isEmpty then (st, none)
      else
        let images := s.downloaded_images
        let pc := (generate_hq_pdf IMAGES_PER_PAGE (images.map info)).2
        (st, some ⟨pc, images.length⟩)
    else (st, none)

/-- The session invariant maintained by ingestion: stored sequence numbers
are strictly increasing along `image_refs`, and all of them are bounded by
the session's counter. -/
def SessionInv (s : Session) : Prop :=
  (seqs s).Chain' (· < ·) ∧ ∀ r ∈ s.image_refs, r.sequence ≤ s.sequence

/-! ### Concrete inputs used by counterexamples and witnesses -/

/-- A plain photo message. -/
def mPhoto : Msg := ⟨0, true, none⟩

/-- A second photo message. -/
def mPhoto1 : Msg := ⟨1, true, none⟩

/-- A media-group event for group 5 whose album holds one photo. -/
def evGroup5 : Event := .group 5 (some [mPhoto])

/-- A single-photo event. -/
def evSingle1 : Event := .single mPhoto1

/-- A session whose `media_groups` set currently holds group 5. -/
def sWithGroup5 : Session :=
  { initSession with media_groups := [5] }

/-- An image ref with sequence `n`, for building concrete sessions. -/
def refAt (n : Nat) : ItemRef := ⟨mPhoto, true, n⟩

/-- A session holding `n` refs with sequences `1..n`. -/
def sessionWithRefs (n : Nat) : Session :=
  { initSession with
    image_refs := (List.range n).map fun i => refAt (i + 1)
    sequence := n }

/-- A bot state with one active session for user 1 holding `n` refs and its
working directory on disk. -/
def stateWithRefs (n : Nat) : BotState :=
  { sessions := [(1, sessionWithRefs n)], dirs := [1] }

/-- A healthy image file: present, probed ratio 1, drawable. -/
def imgOk : ImgInfo := ⟨true, some 1, true⟩

/-- A present, drawable image whose probed aspect ratio is zero. -/
def imgZeroRatio : ImgInfo := ⟨true, some 0, true⟩

/-- A present image that cannot be opened at all. -/
def imgUnreadable : ImgInfo := ⟨true, none, false⟩

/-- A missing file. -/
def imgMissing : ImgInfo := ⟨false, none, false⟩

/-- Per-attempt outcomes where every attempt raises. -/
def attAllFail : Nat → FetchTry := fun _ => .failed

/-- Per-attempt outcomes: first attempt times out, second delivers a valid
2000-byte file. -/
def attSecondOk : Nat → FetchTry :=
  fun i => if i = 0 then .timeout else .done (some 2000)

/-- Download outcomes for a 2-item batch where only index 0 succeeds, with
path id 10. -/
def outFirstOnly : Nat → Option Nat :=
  fun i => if i = 0 then some 10 else none

/-- The would-be path of each index in the 2-item batch. -/
def pathOf : Nat → Nat :=
  fun i => if i = 0 then 10 else 11

instance : IsTotal ItemRef seqLe := ⟨fun a b => Nat.le_total a.sequence b.sequence⟩

instance : IsTrans ItemRef seqLe := ⟨fun _ _ _ h h' => Nat.le_trans h h'⟩

instance : IsTotal (Nat × Nat) idxLe := ⟨fun a b => Nat.le_total a.1 b.1⟩

instance : IsTrans (Nat × Nat) idxLe := ⟨fun _ _ _ h h' => Nat.le_trans h h'⟩

instance : IsAntisymm (Nat × Nat) idxLt :=
  ⟨fun _ _ h h' => absurd (Nat.lt_trans h h') (Nat.lt_irrefl _)⟩

/-! ### Helper lemmas -/

theorem chunk_nil (k : Nat) : chunk k ([] : List α) = [] := by
  rw [chunk]
  split <;> rfl

theorem chunk_cons (k : Nat) (hk : k ≠ 0) (a : α) (l : List α) :
    chunk k (a :: l) = (a :: l).take k :: chunk k ((a :: l).drop k) := by
  rw [chunk]
  simp [hk]

theorem chunk_length (k : Nat) (hk : 0 < k) (l : List α) :
    (chunk k l).length = (l.length + k - 1) / k := by
  generalize hn : l.length = n
  induction n using Nat.strong_induction_on generalizing l with
  | _ n ih =>
    match l with
    | [] =>
      rw [chunk_nil]
      simp only [List.length_nil] at hn ⊢
      subst hn
      simp only [List.length_nil, Nat.zero_add]
      exact (Nat.div_eq_of_lt (by omega)).symm
    | a :: l' =>
      rw [chunk_cons k (by omega)]
      simp only [List.length_cons] at hn
      subst hn
      have hdl : ((a :: l').drop k).length = l'.length + 1 - k := by
        simp [List.length_drop]
      have hlt : ((a :: l').drop k).length < l'.length + 1 := by omega
      rw [List.length_cons, ih _ hlt _ rfl, hdl]
      rcases le_or_lt k (l'.length + 1) with hc | hc
      · have h1 : l'.length + 1 - k + k - 1 = l'.length := by omega
        have h2 : l'.length + 1 + k - 1 = l'.length + k := by omega
        rw [h1, h2, Nat.add_div_right _ hk]
      · have h1 : l'.length + 1 - k = 0 := by omega
        have h2 : l'.length + 1 + k - 1 = l'.length + k := by omega
        rw [h1, h2, Nat.add_div_right _ hk, Nat.zero_add,
          Nat.div_eq_of_lt (by omega), Nat.div_eq_of_lt (by omega)]

/-! ### C6 -/

/-- C6: for every image list of length `n ≥ 1` and `itemsPerPage ≥ 1`, the
page count returned by `generate_hq_pdf` equals `⌈n / itemsPerPage⌉`,
computable without running the layout, and it equals the number of pages
actually emitted into the document. -/
theorem claim_C6 (images : List ImgInfo) (ipp : Nat)
    (hn : 1 ≤ images.length) (hipp : 1 ≤ ipp) :
    (generate_hq_pdf ipp images).2 = images.length ⌈/⌉ ipp ∧
    (generate_hq_pdf ipp images).2 = (generate_hq_pdf ipp images).1.length := by
  constructor
  · rw [Nat.ceilDiv_eq_add_pred_div]
    exact chunk_length ipp (by omega) images
  · simp [generate_hq_pdf]

/-- Witness for C6 at a concrete input: 4 images, 3 per page, 2 pages. -/
theorem claim_C6_witness :
    (generate_hq_pdf 3 [imgOk, imgOk, imgOk, imgOk]).2 = 4 ⌈/⌉ 3 ∧
    (generate_hq_pdf 3 [imgOk, imgOk, imgOk, imgOk]).2 =
      (generate_hq_pdf 3 [imgOk, imgOk, imgOk, imgOk]).1.length := by
  have h := claim_C6 [imgOk, imgOk, imgOk, imgOk] 3 (by decide) (by decide)
  simpa using h

/-! ### C2 -/

theorem mem_of_getLast?_mem {α : Type _} {l : List α} {a : α}
    (h : a ∈ l.getLast?) : a ∈ l := by
  rcases List.mem_getLast?_eq_getLast h with ⟨hne, rfl⟩
  exact List.getLast_mem hne

theorem chain'_lt_append_block (l b : List Nat) (hl : l.Chain' (· < ·))
    (hb : b.Chain' (· < ·)) (hlb : ∀ x ∈ l, ∀ y ∈ b, x < y) :
    (l ++ b).Chain' (· < ·) := by
  rw [List.chain'_append]
  refine ⟨hl, hb, fun x hx y hy => ?_⟩
  exact hlb x (mem_of_getLast?_mem hx) y (List.mem_of_mem_head? hy)

theorem groupAppend_spec (msgs : List Msg) : ∀ n : Nat,
    (groupAppend n msgs).1.map (·.sequence) =
      List.range' n (msgs.filter is_image).length ∧
    (groupAppend n msgs).1.map (·.message) = msgs.filter is_image ∧
    (groupAppend n msgs).2 = n + (msgs.filter is_image).length := by
  induction msgs with
  | nil => intro n; simp [groupAppend]
  | cons m ms ih =>
    intro n
    by_cases him : is_image m = true
    · obtain ⟨h1, h2, h3⟩ := ih (n + 1)
      have hfil : (m :: ms).filter is_image = m :: ms.filter is_image := by
        simp [List.filter_cons, him]
      have hgrp : groupAppend n (m :: ms) =
          (⟨m, m.photo, n⟩ :: (groupAppend (n + 1) ms).1, (groupAppend (n + 1) ms).2) := by
        simp [groupAppend, him]
      rw [hgrp, hfil]
      refine ⟨?_, ?_, ?_⟩
      · simp only [List.map_cons, h1, List.length_cons, List.range'_succ]
      · simp only [List.map_cons, h2]
      · simp only [List.length_cons, h3]
        omega
    · have him' : is_image m = false := by simpa using him
      have hfil : (m :: ms).filter is_image = ms.filter is_image := by
        simp [List.filter_cons, him']
      have hgrp : groupAppend n (m :: ms) = groupAppend n ms := by
        simp [groupAppend, him']
      rw [hgrp, hfil]
      exact ih n

theorem handle_image_inactive (s : Session) (e : Event) (ha : s.active = false) :
    handle_image s e = s := by
  unfold handle_image
  simp [ha]

theorem handle_image_single_img (s : Session) (m : Msg) (ha : s.active = true)
    (him : is_image m = true) :
    handle_image s (.single m) =
      { s with image_refs := s.image_refs ++ [⟨m, m.photo, s.sequence + 1⟩],
               sequence := s.sequence + 1 } := by
  unfold handle_image
  simp [ha, him]

theorem handle_image_single_non (s : Session) (m : Msg) (ha : s.active = true)
    (him : is_image m = false) :
    handle_image s (.single m) = { s with sequence := s.sequence + 1 } := by
  unfold handle_image
  simp [ha, him]

theorem handle_image_group_dup (s : Session) (gid : Nat) (album : Option (List Msg))
    (ha : s.active = true) (hg : gid ∈ s.media_groups) :
    handle_image s (.group gid album) = { s with sequence := s.sequence + 1 } := by
  unfold handle_image
  simp [ha, hg]

theorem handle_image_group_none (s : Session) (gid : Nat) (ha : s.active = true)
    (hg : gid ∉ s.media_groups) :
    handle_image s (.group gid none) = { s with sequence := s.sequence + 1 } := by
  unfold handle_image
  simp [ha, hg, insertGroup, List.erase_cons_head]

theorem handle_image_group_some (s : Session) (gid : Nat) (msgs : List Msg)
    (ha : s.active = true) (hg : gid ∉ s.media_groups) :
    handle_image s (.group gid (some msgs)) =
      { s with image_refs := s.image_refs ++ (groupAppend (s.sequence + 1) msgs).1,
               sequence := (groupAppend (s.sequence + 1) msgs).2 } := by
  unfold handle_image
  simp [ha, hg, insertGroup, List.erase_cons_head]

theorem handle_image_inv (s : Session) (e : Event) (h : SessionInv s) :
    SessionInv (handle_image s e) := by
  obtain ⟨hchain, hbound⟩ := h
  have hbump : SessionInv { s with sequence := s.sequence + 1 } :=
    ⟨hchain, fun r hr => Nat.le_succ_of_le (hbound r hr)⟩
  by_cases ha : s.active = true
  case neg =>
    have ha' : s.active = false := by simpa using ha
    rw [handle_image_inactive s e ha']
    exact ⟨hchain, hbound⟩
  cases e with
  | single m =>
    by_cases him : is_image m = true
    · rw [handle_image_single_img s m ha him]
      refine ⟨?_, ?_⟩
      · have hq : seqs { s with
            image_refs := s.image_refs ++ [⟨m, m.photo, s.sequence + 1⟩],
            sequence := s.sequence + 1 } = seqs s ++ [s.sequence + 1] := by
          simp [seqs]
        rw [hq]
        refine chain'_lt_append_block _ _ hchain (by simp) ?_
        intro x hx y hy
        simp only [List.mem_singleton] at hy
        subst hy
        simp only [seqs] at hx
        obtain ⟨r, hr, rfl⟩ := List.mem_map.mp hx
        exact Nat.lt_succ_of_le (hbound r hr)
      · intro r hr
        simp only [List.mem_append, List.mem_singleton] at hr
        rcases hr with hr | rfl
        · exact Nat.le_succ_of_le (hbound r hr)
        · exact Nat.le_refl _
    · have him' : is_image m = false := by simpa using him
      rw [handle_image_single_non s m ha him']
      exact hbump
  | group gid album =>
    by_cases hg : gid ∈ s.media_groups
    · rw [handle_image_group_dup s gid album ha hg]
      exact hbump
    · cases album with
      | none =>
        rw [handle_image_group_none s gid ha hg]
        exact hbump
      | some msgs =>
        rw [handle_image_group_some s gid msgs ha hg]
        obtain ⟨h1, h2, h3⟩ := groupAppend_spec msgs (s.sequence + 1)
        refine ⟨?_, ?_⟩
        · have hq : seqs { s with
              image_refs := s.image_refs ++ (groupAppend (s.sequence + 1) msgs).1,
              sequence := (groupAppend (s.sequence + 1) msgs).2 } =
              seqs s ++ List.range' (s.sequence + 1) (msgs.filter is_image).length := by
            simp only [seqs, List.map_append, h1]
          rw [hq]
          refine chain'_lt_append_block _ _ hchain
            ((List.pairwise_lt_range' _ _ 1 (by omega)).chain') ?_
          intro x hx y hy
          simp only [seqs] at hx
          obtain ⟨r, hr, rfl⟩ := List.mem_map.mp hx
          have hy' := (List.mem_range'_1.mp hy).1
          exact Nat.lt_of_le_of_lt (hbound r hr) (by omega)
        · intro r hr
          simp only [List.mem_append] at hr
          rcases hr with hr | hr
          · have := hbound r hr
            simp only [h3]
            omega
          · have hmem : r.sequence ∈ (groupAppend (s.sequence + 1) msgs).1.map
                (·.sequence) := List.mem_map.mpr ⟨r, hr, rfl⟩
            rw [h1] at hmem
            have := (List.mem_range'_1.mp hmem).2
            simp only [h3]
            omega

theorem runEvents_inv (es : List Event) (s : Session) (h : SessionInv s) :
    SessionInv (runEvents s es) := by
  induction es generalizing s with
  | nil => exact h
  | cons e es ih => exact ih _ (handle_image_inv s e h)

theorem initSession_inv : SessionInv initSession := by
  constructor
  · simp [seqs, initSession]
  · intro r hr
    simp [initSession] at hr

/-- C2 counterexample: ingesting a one-photo media group and then a single
photo from a fresh session yields sequence numbers `[1, 3]` — strictly
increasing, but with a gap, refuting the no-gaps part of the claim. -/
theorem claim_C2_cex :
    seqs (runEvents initSession [evGroup5, evSingle1]) = [1, 3] ∧
    ¬ (seqs (runEvents initSession [evGroup5, evSingle1])).Chain'
        (fun a b => b = a + 1) := by
  have h : seqs (runEvents initSession [evGroup5, evSingle1]) = [1, 3] := by decide
  refine ⟨h, ?_⟩
  rw [h, List.chain'_cons]
  rintro ⟨h2, -⟩
  omega

/-- C2 (amended): over every sequence of ingestion events on one active
session the stored sequence numbers are strictly increasing (hence no
repeats), though gaps can occur; and the images of one media group, ingested
while its id is not in `media_groups`, occupy the contiguous block
`sequence+1, ..., sequence+k` of sequence numbers in their arrival order
within the group. -/
theorem claim_C2_amended :
    (∀ es : List Event, (seqs (runEvents initSession es)).Chain' (· < ·)) ∧
    ∀ (s : Session) (gid : Nat) (msgs : List Msg),
      s.active = true → gid ∉ s.media_groups →
      ∃ B : List ItemRef,
        (handle_image s (.group gid (some msgs))).image_refs = s.image_refs ++ B ∧
        B.map (·.sequence) =
          List.range' (s.sequence + 1) (msgs.filter is_image).length ∧
        B.map (·.message) = msgs.filter is_image := by
  constructor
  · intro es
    exact (runEvents_inv es initSession initSession_inv).1
  · intro s gid msgs ha hg
    obtain ⟨h1, h2, h3⟩ := groupAppend_spec msgs (s.sequence + 1)
    refine ⟨(groupAppend (s.sequence + 1) msgs).1, ?_, h1, h2⟩
    rw [handle_image_group_some s gid msgs ha hg]

/-- Witness for C2 (amended) at concrete inputs. -/
theorem claim_C2_witness :
    (seqs (runEvents initSession [evGroup5, evSingle1])).Chain' (· < ·) ∧
    ∃ B : List ItemRef,
      (handle_image initSession (.group 7 (some [mPhoto]))).image_refs =
        initSession.image_refs ++ B ∧
      B.map (·.sequence) =
        List.range' (initSession.sequence + 1) ([mPhoto].filter is_image).length ∧
      B.map (·.message) = [mPhoto].filter is_image :=
  ⟨claim_C2_amended.1 [evGroup5, evSingle1],
   claim_C2_amended.2 initSession 7 [mPhoto] rfl (by decide)⟩

/-! ### C3 -/

/-- C3 counterexample: handling the same one-photo media-group event twice
from a fresh session is not idempotent — the group id is discarded from
`media_groups` in the `finally` block when the first call completes, so the
second call re-ingests the whole group and the stored refs double (and the
sequence counter advances). -/
theorem claim_C3_cex :
    handle_image (handle_image initSession evGroup5) evGroup5 ≠
      handle_image initSession evGroup5 ∧
    (handle_image (handle_image initSession evGroup5) evGroup5).image_refs.length = 2 ∧
    (handle_image initSession evGroup5).image_refs.length = 1 := by
  refine ⟨by decide, by decide, by decide⟩

/-- C3 (amended): the dedup guard only applies while the group id is still
in `media_groups` (i.e. while that group is being processed), and even then
the handler is not a no-op: it leaves `image_refs` and `media_groups`
unchanged but increments the sequence counter by one; moreover every
completed (non-deduplicated) group handling removes the id from
`media_groups` again, so a later duplicate delivery re-ingests the group. -/
theorem claim_C3_amended (s : Session) (gid : Nat) (album : Option (List Msg))
    (ha : s.active = true) (hg : gid ∈ s.media_groups) :
    handle_image s (.group gid album) = { s with sequence := s.sequence + 1 } ∧
    ∀ (s' : Session) (gid' : Nat) (album' : Option (List Msg)),
      s'.active = true → gid' ∉ s'.media_groups →
      (handle_image s' (.group gid' album')).media_groups = s'.media_groups := by
  refine ⟨handle_image_group_dup s gid album ha hg, ?_⟩
  intro s' gid' album' ha' hg'
  cases album' with
  | none => rw [handle_image_group_none s' gid' ha' hg']
  | some msgs => rw [handle_image_group_some s' gid' msgs ha' hg']

/-- Witness for C3 (amended) at a session whose `media_groups` holds
group 5, with the persistence part instantiated at a fresh session and
group 7. -/
theorem claim_C3_witness :
    handle_image sWithGroup5 (.group 5 (some [mPhoto])) =
      { sWithGroup5 with sequence := sWithGroup5.sequence + 1 } ∧
    (handle_image initSession (.group 7 (some [mPhoto]))).media_groups =
      initSession.media_groups :=
  ⟨(claim_C3_amended sWithGroup5 5 (some [mPhoto]) rfl (by decide)).1,
   (claim_C3_amended sWithGroup5 5 (some [mPhoto]) rfl (by decide)).2
     initSession 7 (some [mPhoto]) rfl (by decide)⟩

/-! ### C7 and C10 -/

theorem batchRatios_all_present (batch : List ImgInfo)
    (h : ∀ i ∈ batch, i.present = true) :
    batchRatios batch = batch.map fun i => i.probe.getD 1 := by
  induction batch with
  | nil => rfl
  | cons i rest ih =>
    have hi : i.present = true := h i (by simp)
    have hr := ih fun j hj => h j (by simp [hj])
    simp only [batchRatios, hi, if_true, List.map_cons, hr]
    cases hp : i.probe <;> simp [hp, Option.getD]

theorem drawLoop_spec (hpi : ℚ) (f : ImgInfo → ℚ) (suf : List ImgInfo)
    (hs : ∀ i ∈ suf, i.present = true) : ∀ (pre : List ImgInfo) (y : ℚ),
    drawLoop ((pre ++ suf).map f) hpi pre.length y suf =
      specPlacements hpi y (suf.map fun i => if i.draw then some (f i) else none) := by
  induction suf with
  | nil => intro pre y; simp [drawLoop, specPlacements]
  | cons i rest ih =>
    intro pre y
    have hi : i.present = true := hs i (by simp)
    have hrest : ∀ j ∈ rest, j.present = true := fun j hj => hs j (by simp [hj])
    have hre : pre ++ i :: rest = (pre ++ [i]) ++ rest := by simp
    have hlen : pre.length + 1 = (pre ++ [i]).length := by simp
    have hidx : ((pre ++ i :: rest).map f)[pre.length]? = some (f i) := by
      rw [List.map_append, List.getElem?_append_right (by simp)]
      simp
    by_cases hd : i.draw = true
    · simp only [drawLoop, hi, Bool.true_eq_false, if_false, hd, hidx,
        List.map_cons, specPlacements, if_true]
      rw [hlen, show ((pre ++ i :: rest).map f) = (((pre ++ [i]) ++ rest).map f) from by
        rw [← hre]]
      exact congrArg (List.cons _) (ih hrest (pre ++ [i]) _)
    · have hd' : i.draw = false := by simpa using hd
      simp only [drawLoop, hi, Bool.true_eq_false, if_false, hd', if_true,
        List.map_cons, specPlacements]
      rw [hlen, show ((pre ++ i :: rest).map f) = (((pre ++ [i]) ++ rest).map f) from by
        rw [← hre]]
      exact ih hrest (pre ++ [i]) y

/-- C7 (amended): for every batch whose files all exist, the emitted
placements follow the spec geometry (§4.4) — slot height
`(pageHeight - spacing*(batchSize-1))/batchSize`, full-page-width candidate,
height-constrained fallback preserving aspect ratio, horizontal centering,
top-down stacking with the cursor decremented by `height + spacing` — over
the effective aspect ratios: an image whose ratio probe failed is recorded
as ratio 1.0, an image that cannot be opened at draw time is skipped with no
placement, and a zero recorded ratio is used as-is (full width, zero
height), not replaced by 1.0. -/
theorem claim_C7_amended (batch : List ImgInfo)
    (h : ∀ i ∈ batch, i.present = true) :
    drawBatch batch =
      specPlacements (specSlotHeight batch.length) PAGE_HEIGHT
        (batch.map effAspect) := by
  unfold drawBatch
  rw [batchRatios_all_present batch h]
  have hslot : height_per_image batch.length = specSlotHeight batch.length := rfl
  rw [hslot]
  have hmain := drawLoop_spec (specSlotHeight batch.length)
    (fun i => i.probe.getD 1) batch h [] PAGE_HEIGHT
  simp only [List.nil_append, List.length_nil] at hmain
  rw [hmain]
  have : (batch.map fun i => if i.draw then some (i.probe.getD 1) else none) =
      batch.map effAspect := by
    simp [effAspect]
  rw [this]

/-- C7 counterexample: a present, readable image with recorded aspect ratio
zero is laid out with ratio 0 — full page width, zero height — rather than
being treated as ratio 1.0 (which would give height `PAGE_WIDTH`); and a
present image that cannot be opened is skipped entirely, not laid out with
ratio 1.0. -/
theorem claim_C7_cex :
    drawBatch [imgZeroRatio] = [⟨0, PAGE_HEIGHT, PAGE_WIDTH, 0⟩] ∧
    (0 : ℚ) ≠ PAGE_WIDTH * 1 ∧
    drawBatch [imgUnreadable] = [] := by
  refine ⟨?_, ?_, ?_⟩
  · unfold drawBatch
    norm_num [batchRatios, imgZeroRatio, drawLoop, height_per_image,
      PAGE_WIDTH, PAGE_HEIGHT, VERTICAL_SPACING]
  · norm_num [PAGE_WIDTH]
  · simp [drawBatch, batchRatios, imgUnreadable, drawLoop]

/-- Witness for C7 (amended) on a healthy one-image batch. -/
theorem claim_C7_witness :
    drawBatch [imgOk] =
      specPlacements (specSlotHeight [imgOk].length) PAGE_HEIGHT
        ([imgOk].map effAspect) :=
  claim_C7_amended [imgOk] (by decide)

/-- C10: evaluation at the failing input — a two-image batch whose first
file is missing while the second is healthy.  The per-batch ratio list gets
one entry instead of two, so `aspect_ratios[idx]` for the second image is
out of range; the `IndexError` is swallowed by the `except` handler and the
healthy image is silently dropped from the page. -/
theorem claim_C10_bug :
    batchRatios [imgMissing, imgOk] = [1] ∧
    (batchRatios [imgMissing, imgOk]).length ≠ 2 ∧
    drawBatch [imgMissing, imgOk] = [] := by
  refine ⟨by decide, by decide, by decide⟩

/-! ### C8 -/

theorem fetchSuccess_not_undersized (t : FetchTry) (h : fetchSuccess t = true) :
    fetchUndersized t = false := by
  cases t with
  | timeout => rfl
  | failed => rfl
  | done sz =>
    cases sz with
    | none => rfl
    | some n =>
      simp only [fetchSuccess, decide_eq_true_eq] at h
      simp only [fetchUndersized, decide_eq_false_iff_not]
      omega

theorem robust_download_loop_spec (att : Nat → FetchTry) : ∀ (rem i : Nat),
    (robust_download_loop att i rem).attempts ≤ rem ∧
    (∀ j, (robust_download_loop att i rem).result = some j →
      i ≤ j ∧ j < i + rem ∧ fetchSuccess (att j) = true ∧
      (robust_download_loop att i rem).attempts + i = j + 1 ∧
      (robust_download_loop att i rem).sleeps = (List.range' i (j - i)).map (2 ^ ·) ∧
      ∀ k, i ≤ k → k < j → fetchSuccess (att k) = false) ∧
    ((robust_download_loop att i rem).result = none →
      (robust_download_loop att i rem).attempts = rem ∧
      (robust_download_loop att i rem).sleeps = (List.range' i rem).map (2 ^ ·)) ∧
    ((robust_download_loop att i rem).result = none ↔
      ∀ k, i ≤ k → k < i + rem → fetchSuccess (att k) = false) ∧
    (robust_download_loop att i rem).deleted =
      (List.range' i (robust_download_loop att i rem).attempts).filter
        (fun j => fetchUndersized (att j)) := by
  intro rem
  induction rem with
  | zero =>
    intro i
    refine ⟨Nat.le_refl 0, ?_, ?_, ?_, ?_⟩
    · intro j hj
      simp [robust_download_loop] at hj
    · intro _
      exact ⟨rfl, rfl⟩
    · constructor
      · intro _ k hk1 hk2
        omega
      · intro _
        rfl
    · rfl
  | succ rem ih =>
    intro i
    obtain ⟨iha, ihs, ihn, ihiff, ihd⟩ := ih (i + 1)
    by_cases hs : fetchSuccess (att i) = true
    · have hred : robust_download_loop att i (rem + 1) = ⟨some i, [], [], 1⟩ := by
        simp [robust_download_loop, hs]
      rw [hred]; dsimp only
      refine ⟨by omega, ?_, ?_, ?_, ?_⟩
      · intro j hj
        obtain rfl : j = i := by simpa using hj.symm
        exact ⟨Nat.le_refl j, by omega, hs, by omega, by simp,
          fun k hk1 hk2 => absurd hk2 (by omega)⟩
      · intro h
        exact absurd h (by simp)
      · constructor
        · intro h
          exact absurd h (by simp)
        · intro hall
          exact absurd (hall i (Nat.le_refl i) (by omega)) (by simp [hs])
      · have h1 : List.range' i 1 = [i] := rfl
        rw [h1]
        simp [List.filter, fetchSuccess_not_undersized (att i) hs]
    · have hs' : fetchSuccess (att i) = false := by simpa using hs
      have hred : robust_download_loop att i (rem + 1) =
          { result := (robust_download_loop att (i + 1) rem).result
            sleeps := 2 ^ i :: (robust_download_loop att (i + 1) rem).sleeps
            deleted := if fetchUndersized (att i) = true then
                i :: (robust_download_loop att (i + 1) rem).deleted
              else (robust_download_loop att (i + 1) rem).deleted
            attempts := (robust_download_loop att (i + 1) rem).attempts + 1 } := by
        simp [robust_download_loop, hs']
      rw [hred]; dsimp only
      refine ⟨by omega, ?_, ?_, ?_, ?_⟩
      · intro j hj
        obtain ⟨h1, h2, h3, h4, h5, h6⟩ := ihs j hj
        refine ⟨by omega, by omega, h3, by omega, ?_, ?_⟩
        · have hsplit : j - i = (j - (i + 1)) + 1 := by omega
          rw [hsplit, List.range'_succ, List.map_cons, h5]
        · intro k hk1 hk2
          rcases Nat.eq_or_lt_of_le hk1 with rfl | hk
          · exact hs'
          · exact h6 k (by omega) hk2
      · intro h
        obtain ⟨ha1, ha2⟩ := ihn h
        refine ⟨by omega, ?_⟩
        rw [List.range'_succ, List.map_cons, ha2]
      · constructor
        · intro h k hk1 hk2
          rcases Nat.eq_or_lt_of_le hk1 with rfl | hk
          · exact hs'
          · exact (ihiff.mp h) k (by omega) (by omega)
        · intro hall
          exact ihiff.mpr fun k hk1 hk2 => hall k (by omega) (by omega)
      · rw [List.range'_succ, List.filter_cons]
        by_cases hu : fetchUndersized (att i) = true
        · simp [hu, ihd]
        · have hu' : fetchUndersized (att i) = false := by simpa using hu
          simp [hu', ihd]

/-- C8 (amended): `robust_download` makes at most `retries` attempts; an
attempt succeeds exactly when the transfer produced a file of more than
1024 bytes (timeouts, errors, missing files and undersized files all count
as failed attempts); the call returns at the first successful attempt;
undersized artifacts are deleted at the attempts that produced them; the
backoff `2^attemptIndex` (0-based, base 1s) is slept after every failed
attempt — including after the final one, just before the exhaustion error —
not only between attempts; and on exhaustion the task's error becomes a
settled `none` value reported per index, never an exception propagated past
the gather boundary. -/
theorem claim_C8_amended (m : Nat) (att : Nat → FetchTry) :
    (robust_download m att).attempts ≤ m ∧
    (∀ t : FetchTry, fetchSuccess t = true ↔
      ∃ sz, t = .done (some sz) ∧ 1024 < sz) ∧
    (∀ j, (robust_download m att).result = some j →
      j < m ∧ fetchSuccess (att j) = true ∧
      (robust_download m att).attempts = j + 1 ∧
      (robust_download m att).sleeps = (List.range j).map (2 ^ ·) ∧
      ∀ k, k < j → fetchSuccess (att k) = false) ∧
    ((robust_download m att).result = none ↔
      ∀ k, k < m → fetchSuccess (att k) = false) ∧
    ((robust_download m att).result = none →
      (robust_download m att).attempts = m ∧
      (robust_download m att).sleeps = (List.range m).map (2 ^ ·) ∧
      process_image_outcome (robust_download m att) = none) ∧
    (robust_download m att).deleted =
      (List.range (robust_download m att).attempts).filter
        (fun j => fetchUndersized (att j)) ∧
    ∀ (n : Nat) (oc : Nat → Option Nat) (j : Nat), j < n → oc j = none →
      j ∈ failure_reports n oc := by
  obtain ⟨h1, h2, h3, h4, h5⟩ := robust_download_loop_spec att m 0
  unfold robust_download
  refine ⟨h1, ?_, ?_, ?_, ?_, ?_, ?_⟩
  · intro t
    cases t with
    | timeout => simp [fetchSuccess]
    | failed => simp [fetchSuccess]
    | done sz =>
      cases sz with
      | none => simp [fetchSuccess]
      | some n => simp [fetchSuccess]
  · intro j hj
    obtain ⟨g1, g2, g3, g4, g5, g6⟩ := h2 j hj
    refine ⟨by omega, g3, by omega, ?_, fun k hk => g6 k (by omega) hk⟩
    rw [List.range_eq_range']
    simpa using g5
  · constructor
    · intro h k hk
      exact h4.mp h k (Nat.zero_le k) (by omega)
    · intro hall
      exact h4.mpr fun k _ hk => hall k (by omega)
  · intro h
    obtain ⟨a1, a2⟩ := h3 h
    refine ⟨a1, ?_, ?_⟩
    · rw [List.range_eq_range']
      exact a2
    · simp [process_image_outcome]
      exact h
  · rw [List.range_eq_range']
    exact h5
  · intro n oc j hj hoc
    simp [failure_reports, List.mem_filter, List.mem_range, hj, hoc]

/-- C8 counterexample: with 2 attempts that both fail, the loop sleeps
twice — `[1, 2]` seconds, once after each failed attempt including the
final one before raising — whereas a backoff occurring only between
attempts would allow at most `attempts - 1 = 1` sleeps. -/
theorem claim_C8_cex :
    (robust_download 2 attAllFail).attempts = 2 ∧
    (robust_download 2 attAllFail).sleeps = [1, 2] ∧
    ¬ ((robust_download 2 attAllFail).sleeps.length ≤
        (robust_download 2 attAllFail).attempts - 1) := by
  refine ⟨by decide, by decide, by decide⟩

/-- Witness for C8 (amended): outcomes [timeout, valid 2000-byte file]
succeed at attempt index 1 after exactly one backoff sleep. -/
theorem claim_C8_witness :
    (robust_download 2 attSecondOk).sleeps = (List.range 1).map (2 ^ ·) :=
  ((claim_C8_amended 2 attSecondOk).2.2.1 1 (by decide)).2.2.2.1

/-! ### C9 -/

/-- C9: evaluation at the failing input — a session with 9 collected items.
`stop_session` creates one download task per item eagerly (bot.py 306-318)
before awaiting any result, with no semaphore or queue; the configured
`MAX_CONCURRENT_DOWNLOADS = 8` is never referenced, so all 9 retrieval
tasks are scheduled concurrently. -/
theorem claim_C9_bug :
    (download_tasks (sessionWithRefs 9)).length = 9 ∧
    MAX_CONCURRENT_DOWNLOADS = 8 ∧
    MAX_CONCURRENT_DOWNLOADS < (download_tasks (sessionWithRefs 9)).length := by
  refine ⟨by decide, rfl, by decide⟩

/-! ### C1 -/

theorem collect_aux_pairwise (l : List (Option Nat)) : ∀ n : Nat,
    ((pyEnumFrom n l).filterMap fun p => p.2.map fun v => (p.1, v)).Pairwise idxLt ∧
    ∀ q ∈ (pyEnumFrom n l).filterMap fun p => p.2.map fun v => (p.1, v), n ≤ q.1 := by
  induction l with
  | nil =>
    intro n
    exact ⟨List.Pairwise.nil, by simp [pyEnumFrom]⟩
  | cons o l ih =>
    intro n
    obtain ⟨ihp, ihb⟩ := ih (n + 1)
    cases o with
    | none =>
      simp only [pyEnumFrom, List.filterMap_cons, Option.map_none']
      exact ⟨ihp, fun q hq => Nat.le_of_succ_le (ihb q hq)⟩
    | some v =>
      simp only [pyEnumFrom, List.filterMap_cons, Option.map_some']
      constructor
      · exact List.Pairwise.cons
          (fun q hq => Nat.lt_of_lt_of_le (Nat.lt_succ_self n) (ihb q hq)) ihp
      · intro q hq
        rcases List.mem_cons.mp hq with rfl | hq
        · exact Nat.le_refl n
        · exact Nat.le_of_succ_le (ihb q hq)

theorem collect_aux_map_snd (l : List (Option Nat)) : ∀ n : Nat,
    (((pyEnumFrom n l).filterMap fun p => p.2.map fun v => (p.1, v)).map Prod.snd)
      = l.filterMap id := by
  induction l with
  | nil => intro n; rfl
  | cons o l ih =>
    intro n
    cases o with
    | none =>
      simpa only [pyEnumFrom, List.filterMap_cons, Option.map_none'] using ih (n + 1)
    | some v =>
      simp only [pyEnumFrom, List.filterMap_cons, Option.map_some', List.map_cons,
        ih (n + 1)]
      rfl

theorem collect_downloads_pairwise (results : List (Option Nat)) :
    (collect_downloads results).Pairwise idxLt :=
  (collect_aux_pairwise results 0).1

theorem collect_downloads_map_snd (results : List (Option Nat)) :
    (collect_downloads results).map Prod.snd = results.filterMap id :=
  collect_aux_map_snd results 0

theorem sort_downloads_eq_of_perm (l c : List (Nat × Nat)) (hperm : l.Perm c)
    (hc : c.Pairwise idxLt) : sort_downloads l = c := by
  have hperm' : (sort_downloads l).Perm c :=
    (List.perm_insertionSort idxLe l).trans hperm
  have hsl : (sort_downloads l).Pairwise idxLe := List.sorted_insertionSort idxLe l
  have hnodupc : (c.map Prod.fst).Nodup := by
    rw [List.Nodup, List.pairwise_map]
    exact hc.imp fun h => Nat.ne_of_lt h
  have hnodupl : ((sort_downloads l).map Prod.fst).Nodup :=
    (hperm'.map Prod.fst).nodup_iff.mpr hnodupc
  have hsl' : (sort_downloads l).Pairwise idxLt := by
    have hne : (sort_downloads l).Pairwise fun a b => a.1 ≠ b.1 := by
      rw [List.Nodup, List.pairwise_map] at hnodupl
      exact hnodupl
    exact (hsl.and hne).imp fun h => lt_of_le_of_ne h.1 h.2
  exact List.eq_of_perm_of_sorted hperm' hsl' hc

theorem filterMap_sublist_map (outcome : Nat → Option Nat) (path : Nat → Nat) :
    ∀ l : List Nat, (∀ i ∈ l, outcome i = none ∨ outcome i = some (path i)) →
      List.Sublist (l.filterMap outcome) (l.map path) := by
  intro l
  induction l with
  | nil => intro _; simp
  | cons a l ih =>
    intro h
    rcases h a (by simp) with ha | ha
    · simp only [List.filterMap_cons, ha, List.map_cons]
      exact (ih fun i hi => h i (by simp [hi])).cons _
    · simp only [List.filterMap_cons, ha, List.map_cons]
      exact (ih fun i hi => h i (by simp [hi])).cons₂ _

theorem gather_filterMap (n : Nat) (outcome : Nat → Option Nat) :
    (gather_results n outcome).filterMap id = (List.range n).filterMap outcome := by
  unfold gather_results
  rw [List.filterMap_map]
  rfl

theorem stop_emit_eq (s : Session) (outcome : Nat → Option Nat) :
    stop_emit s outcome = (List.range (sorted_refs s).length).filterMap outcome := by
  unfold stop_emit
  rw [sort_downloads_eq_of_perm _ _ (List.Perm.refl _) (collect_downloads_pairwise _),
    collect_downloads_map_snd, gather_filterMap]

/-- C1: after all download tasks settle, the image-path list emitted by
`stop_session` lists exactly the successful outcomes in ascending
original-index order: it equals `filterMap` of the per-index outcomes over
the indices in order, it is a subsequence of the input order's would-be
paths, any permutation of the collected `(index, path)` pairs — i.e. any
completion order — sorts back to the same list, and one failed item never
removes the others' paths. -/
theorem claim_C1 (s : Session) (outcome : Nat → Option Nat) (path : Nat → Nat)
    (collected : List (Nat × Nat))
    (hperm : collected.Perm (collect_downloads
      (gather_results (sorted_refs s).length outcome)))
    (hpath : ∀ i, outcome i = none ∨ outcome i = some (path i)) :
    (sort_downloads collected).map Prod.snd = stop_emit s outcome ∧
    stop_emit s outcome = (List.range (sorted_refs s).length).filterMap outcome ∧
    List.Sublist (stop_emit s outcome) ((List.range (sorted_refs s).length).map path) ∧
    ∀ i p, i < (sorted_refs s).length → outcome i = some p →
      p ∈ stop_emit s outcome := by
  have he := stop_emit_eq s outcome
  refine ⟨?_, he, ?_, ?_⟩
  · unfold stop_emit
    rw [sort_downloads_eq_of_perm collected _ hperm (collect_downloads_pairwise _),
      sort_downloads_eq_of_perm _ _ (List.Perm.refl _) (collect_downloads_pairwise _)]
  · rw [he]
    exact filterMap_sublist_map outcome path _ fun i _ => hpath i
  · intro i p hi hp
    rw [he]
    exact List.mem_filterMap.mpr ⟨i, List.mem_range.mpr hi, hp⟩

/-- Witness for C1: in a 2-ref session where only index 0 succeeds with
path 10, that path is emitted. -/
theorem claim_C1_witness :
    10 ∈ stop_emit (sessionWithRefs 2) outFirstOnly :=
  (claim_C1 (sessionWithRefs 2) outFirstOnly pathOf
      (collect_downloads (gather_results (sorted_refs (sessionWithRefs 2)).length
        outFirstOnly))
      (List.Perm.refl _)
      (fun i => by
        by_cases h : i = 0
        · subst h
          exact Or.inr rfl
        · exact Or.inl (by simp [outFirstOnly, h]))).2.2.2 0 10 (by decide) rfl

/-! ### C4 and C5 -/

/-- C4: evaluation at the failing input — `/stop` on an active session with
zero collected items.  `clean_session(user_id)` (bot.py line 294) is an
`async def` called without `await`, so the coroutine never runs: the
session entry stays in the sessions map (merely marked inactive) and the
working directory stays on disk; only an actual run of `clean_session`
(third and fourth conjuncts) would remove them as the claim demands. -/
theorem claim_C4_bug :
    getSession (stop_session (stateWithRefs 0) 1 fun _ => none) 1 =
      some { sessionWithRefs 0 with active := false } ∧
    (stop_session (stateWithRefs 0) 1 fun _ => none).dirs = [1] ∧
    getSession (clean_session 1 (stop_session (stateWithRefs 0) 1 fun _ => none)) 1 =
      none ∧
    (clean_session 1 (stop_session (stateWithRefs 0) 1 fun _ => none)).dirs = [] := by
  refine ⟨by decide, by decide, by decide, by decide⟩

theorem find?_map_update (u : Nat) (s' : Session) :
    ∀ l : List (Nat × Session),
      ((l.find? fun p => p.1 = u)).isSome = true →
      ((l.map fun p => if p.1 = u then (u, s') else p).find? fun p => p.1 = u) =
        some (u, s') := by
  intro l
  induction l with
  | nil =>
    intro h
    simp [List.find?] at h
  | cons a l ih =>
    intro h
    by_cases ha : a.1 = u
    · simp only [List.map_cons, if_pos ha]
      rw [List.find?_cons_of_pos _ (by simp)]
    · simp only [List.map_cons, if_neg ha]
      rw [List.find?_cons_of_neg _ (by simpa using ha)]
      apply ih
      rwa [List.find?_cons_of_neg _ (by simpa using ha)] at h

theorem getSession_setSession (st : BotState) (u : Nat) (s s' : Session)
    (h : getSession st u = some s) :
    getSession (setSession st u s') u = some s' ∧
    (setSession st u s').dirs = st.dirs := by
  refine ⟨?_, rfl⟩
  unfold getSession at h ⊢
  unfold setSession
  dsimp only
  have hsome : ((st.sessions.find? fun p => p.1 = u)).isSome = true := by
    cases hf : st.sessions.find? fun p => p.1 = u with
    | none =>
      rw [hf] at h
      simp at h
    | some q => simp
  rw [find?_map_update u s' st.sessions hsome]
  rfl

theorem filterMap_const_none (l : List Nat) :
    l.filterMap (fun _ => (none : Option Nat)) = [] := by
  induction l with
  | nil => rfl
  | cons a l ih => simpa [List.filterMap_cons] using ih

theorem stop_emit_all_none (s : Session) :
    stop_emit s (fun _ => none) = [] := by
  rw [stop_emit_eq]
  exact filterMap_const_none _

theorem generate_hq_pdf_nil (ipp : Nat) : generate_hq_pdf ipp [] = ([], 0) := by
  unfold generate_hq_pdf
  rw [chunk_nil]
  rfl

theorem stop_session_active (st : BotState) (u : Nat) (s : Session)
    (outcome : Nat → Option Nat)
    (hs : getSession st u = some s) (ha : s.active = true)
    (hne : s.image_refs ≠ []) :
    stop_session st u outcome =
      setSession st u
        { s with active := false,
                 downloaded_images := stop_emit { s with active := false } outcome,
                 waiting_for_name := true } := by
  unfold stop_session
  rw [hs]
  dsimp only
  rw [if_neg (by simp [ha]), if_neg (by simpa using hne)]

/-- C5 counterexample: with both items of a 2-item session failing to
download, `stop_session` stores an empty image list and asks for a name,
and `handle_text` then produces and sends a zero-page document; no batch
error is raised, the session entry survives, and the working directory is
still on disk. -/
theorem claim_C5_cex :
    (handle_text (stop_session (stateWithRefs 2) 1 fun _ => none) 1 ['n']
        (fun _ => imgOk)).2 = some ⟨0, 0⟩ ∧
    (stop_session (stateWithRefs 2) 1 fun _ => none).dirs = [1] ∧
    getSession (stop_session (stateWithRefs 2) 1 fun _ => none) 1 ≠ none := by
  refine ⟨?_, by decide, by decide⟩
  have hget : getSession (stop_session (stateWithRefs 2) 1 fun _ => none) 1 =
      some { sessionWithRefs 2 with
             active := false,
             downloaded_images := [],
             waiting_for_name := true } := by decide
  have hpn : (pyStrip ['n']).isEmpty = false := by decide
  unfold handle_text
  rw [hget]
  simp [hpn, generate_hq_pdf_nil]

/-- C5 (amended): when every item's fetch fails, `stop_session` stores an
empty `downloaded_images` list and transitions to waiting-for-name instead
of reporting a terminal batch error; on receiving a name, the empty list is
laid out into a zero-page document which is sent (caption: 0 images,
0 pages); the session entry and its working directory are left in place by
both handlers (the `clean_session` coroutine is never awaited). -/
theorem claim_C5_amended (st : BotState) (u : Nat) (s : Session)
    (text : List Char) (info : Nat → ImgInfo)
    (hs : getSession st u = some s) (ha : s.active = true)
    (hne : s.image_refs ≠ []) (htext : (pyStrip text).isEmpty = false) :
    ∃ s1 : Session,
      getSession (stop_session st u fun _ => none) u = some s1 ∧
      s1.downloaded_images = [] ∧
      s1.waiting_for_name = true ∧
      (stop_session st u fun _ => none).dirs = st.dirs ∧
      handle_text (stop_session st u fun _ => none) u text info =
        (stop_session st u fun _ => none, some ⟨0, 0⟩) := by
  rw [stop_session_active st u s _ hs ha hne]
  obtain ⟨hget, hdirs⟩ := getSession_setSession st u s
    { s with
      active := false,
      downloaded_images := stop_emit { s with active := false } (fun _ => none),
      waiting_for_name := true } hs
  refine ⟨_, hget, stop_emit_all_none _, rfl, hdirs, ?_⟩
  unfold handle_text
  rw [hget]
  simp [htext, stop_emit_all_none, generate_hq_pdf_nil]

/-- Witness for C5 (amended) at a concrete 2-item all-failing session. -/
theorem claim_C5_witness :
    ∃ s1 : Session,
      getSession (stop_session (stateWithRefs 2) 1 fun _ => none) 1 = some s1 ∧
      s1.downloaded_images = [] ∧
      s1.waiting_for_name = true ∧
      (stop_session (stateWithRefs 2) 1 fun _ => none).dirs =
        (stateWithRefs 2).dirs ∧
      handle_text (stop_session (stateWithRefs 2) 1 fun _ => none) 1 ['n']
          (fun _ => imgOk) =
        (stop_session (stateWithRefs 2) 1 fun _ => none, some ⟨0, 0⟩) :=
  claim_C5_amended (stateWithRefs 2) 1 (sessionWithRefs 2) ['n'] (fun _ => imgOk)
    (by decide) (by decide) (by decide) (by decide)

end PdfBot
